import Mathlib

/-!
Shallow embedding of the transaction-tracker application (`src/main.py`).

Transactions are stored as flat records with a date string (`'%Y-%m-%d'`),
a kind string (`'Income'` or `'Expense'`, the dict key `'Type'`), a category
string, a monetary amount and a free-text description.  Monetary amounts are
modelled as rationals.  The aggregation code operates on pandas dataframes
built from the list of records; here every dataframe computation is modelled
directly on the list of records, preserving the order and multiplicity of
rows exactly as pandas does.
-/

/-- A transaction record, the dict built in the add-transaction handler of
`src/main.py` (keys `Date`, `Type`, `Category`, `Amount`, `Description`).
The `Type` key is called `kind` here because `Type` is reserved in Lean. -/
structure Transaction where
  date : String
  kind : String
  category : String
  amount : ℚ
  description : String
deriving DecidableEq, Repr

/-- Sum of the `Amount` column of a list of rows (`df['Amount'].sum()`);
pandas returns 0 for an empty selection. -/
def sumAmounts (ts : List Transaction) : ℚ :=
  (ts.map (fun t => t.amount)).sum

/-- `period_income` of `src/main.py` line 291:
`data_to_analyze[data_to_analyze['Type'] == 'Income']['Amount'].sum()`. -/
def period_income (ts : List Transaction) : ℚ :=
  sumAmounts (ts.filter (fun t => t.kind == "Income"))

/-- `period_expenses` of `src/main.py` line 292:
`data_to_analyze[data_to_analyze['Type'] == 'Expense']['Amount'].sum()`. -/
def period_expenses (ts : List Transaction) : ℚ :=
  sumAmounts (ts.filter (fun t => t.kind == "Expense"))

/-- `period_balance` of `src/main.py` line 293:
`period_income - period_expenses`. -/
def period_balance (ts : List Transaction) : ℚ :=
  period_income ts - period_expenses ts

/-- Spec-side definition, following the spec's words: `totalsByKind`
sums `amount` per `kind`; an absent kind yields 0, never an error.
Used to compare the code's `period_*` computations against the spec. -/
def totalsByKind (ts : List Transaction) (k : String) : ℚ :=
  ts.foldr (fun t acc => if t.kind = k then t.amount + acc else acc) 0

/-- The savings-rate delta of the balance metric, `src/main.py` lines 297-298:
`f"{(period_balance/period_income*100):.1f}%" if period_income > 0 else ""`.
`none` models the empty (blank) delta string; the conditional expression
evaluates the division only when `period_income > 0`. -/
def savings_rate_delta (ts : List Transaction) : Option ℚ :=
  if period_income ts > 0 then
    some (period_balance ts / period_income ts * 100)
  else
    none

/-- Code-point comparison of two strings as lists of characters; this is
the lexicographic string order Python (and hence pandas group-key sorting)
uses. -/
def charsLe : List Char → List Char → Bool
  | [], _ => true
  | _ :: _, [] => false
  | a :: as, b :: bs =>
    if a.toNat < b.toNat then true
    else if b.toNat < a.toNat then false
    else charsLe as bs

/-- Lexicographic (code-point) `≤` on strings. -/
def strLe (a b : String) : Bool :=
  charsLe a.data b.data

/-- `df.groupby('Category')['Amount'].sum().reset_index()`: one row per
category present in `l`, keyed by the distinct categories sorted ascending
(pandas `groupby` sorts group keys by default), each paired with the sum of
the amounts of the rows of that category. -/
def groupby_category_sum (l : List Transaction) : List (String × ℚ) :=
  (List.insertionSort (fun a b => strLe a b = true)
      ((l.map (fun t => t.category)).dedup)).map
    (fun c => (c, sumAmounts (l.filter (fun t => t.category == c))))

/-- `income_by_category` of `src/main.py` line 315. -/
def income_by_category (ts : List Transaction) : List (String × ℚ) :=
  groupby_category_sum (ts.filter (fun t => t.kind == "Income"))

/-- `expense_by_category` of `src/main.py` line 333. -/
def expense_by_category (ts : List Transaction) : List (String × ℚ) :=
  groupby_category_sum (ts.filter (fun t => t.kind == "Expense"))

/-- The type/category filter steps of `src/main.py` lines 151-157.
A Python empty list is falsy, so an empty selection skips its filter step
(`if filter_type:` / `if filter_category:`); `.isin` is list membership. -/
def filtered_df (ts : List Transaction)
    (filter_type filter_category : List String) : List Transaction :=
  let step1 :=
    if filter_type ≠ [] then
      ts.filter (fun t => filter_type.contains t.kind)
    else ts
  if filter_category ≠ [] then
    step1.filter (fun t => filter_category.contains t.category)
  else step1

/-- A decimal digit's value, `none` on a non-digit character. -/
def digitVal (c : Char) : Option Nat :=
  if 48 ≤ c.toNat ∧ c.toNat ≤ 57 then some (c.toNat - 48) else none

/-- Parse a run of decimal digits to a number, `none` on any non-digit
(models the strict parsing `pd.to_datetime` performs on `'%Y-%m-%d'`
strings). -/
def parseNatChars (cs : List Char) : Option Nat :=
  cs.foldl (fun acc c => acc.bind fun n => (digitVal c).map fun d => n * 10 + d)
    (some 0)

/-- `pd.to_datetime(df['Date']).dt.year` (`src/main.py` line 239): the first
four characters of the `'%Y-%m-%d'` date string, as a number.  Dates written
by the app always parse; a malformed date (where `pd.to_datetime` would
raise) is defaulted to 0, which no claim depends on. -/
def yearOf (t : Transaction) : Nat :=
  (parseNatChars (t.date.data.take 4)).getD 0

/-- `pd.to_datetime(df['Date']).dt.month` (`src/main.py` line 240):
characters 5-6 of the `'%Y-%m-%d'` date string, as a number. -/
def monthOf (t : Transaction) : Nat :=
  (parseNatChars ((t.date.data.drop 5).take 2)).getD 0

/-- The distinct `(Year, Month)` keys occurring in a list of rows
(`df[['Year','Month']].drop_duplicates()`; key order is irrelevant to the
partition property). -/
def ymKeys (ts : List Transaction) : List (Nat × Nat) :=
  (ts.map (fun t => (yearOf t, monthOf t))).dedup

/-- The rows selected for one `(Year, Month)` bucket: `src/main.py`
lines 256 and 269, `df[df['Year'] == y]` then `...[...['Month'] == m]`. -/
def ymGroup (ts : List Transaction) (k : Nat × Nat) : List Transaction :=
  ts.filter (fun t => yearOf t == k.1 && monthOf t == k.2)

/-- The five-field comparison of a stored transaction against a displayed
row, `src/main.py` lines 189-193. -/
def matchesRow (t row : Transaction) : Bool :=
  t.date == row.date && t.kind == row.kind && t.category == row.category &&
    t.amount == row.amount && t.description == row.description

/-- `original_index` of `src/main.py` lines 187-194:
`next(t for t in transactions if <matches row>)` followed by
`transactions.index(t)`.  `none` models the `StopIteration` raised by
`next` when nothing matches (no state is mutated in that case). -/
def original_index (ts : List Transaction) (row : Transaction) : Option Nat :=
  (ts.find? (fun t => matchesRow t row)).map (fun t => ts.indexOf t)

/-- `delete_transaction` of `src/main.py` lines 45-49:
`transactions.pop(index)` (persistence and rerun aside). -/
def delete_transaction (ts : List Transaction) (i : Nat) : List Transaction :=
  ts.eraseIdx i

/-- The single-row delete flow (`src/main.py` lines 186-197): locate the
row's index in the stored list, then pop it; `none` when no stored
transaction matches the row (the lookup raises before any mutation). -/
def delete_row (ts : List Transaction) (row : Transaction) :
    Option (List Transaction) :=
  (original_index ts row).map (fun i => delete_transaction ts i)

/-- The category taxonomy, `st.session_state.categories`: a dict from the
two kind strings to lists of category names. -/
structure Categories where
  income : List String
  expense : List String
deriving DecidableEq, Repr

/-- Dict lookup `categories[category_type]`; the UI only ever passes
`'Income'` or `'Expense'` (selectbox values); any other key would raise
`KeyError`, modelled as the empty list. -/
def Categories.get (c : Categories) (k : String) : List String :=
  if k = "Income" then c.income
  else if k = "Expense" then c.expense
  else []

/-- Dict update `categories[category_type] = l` for the two valid keys. -/
def Categories.set (c : Categories) (k : String) (l : List String) :
    Categories :=
  if k = "Income" then { c with income := l }
  else if k = "Expense" then { c with expense := l }
  else c

/-- The whole in-memory session state touched by the claims: the stored
transaction list and the category taxonomy. -/
structure AppState where
  transactions : List Transaction
  categories : Categories
deriving DecidableEq, Repr

/-- The add-category handler, `src/main.py` lines 111-115: appends only if
the name is truthy (non-empty) and not already present, else reports an
error and leaves the state unchanged. -/
def add_category (s : AppState) (k name : String) : AppState :=
  if name ≠ "" ∧ name ∉ s.categories.get k then
    { s with categories := s.categories.set k (s.categories.get k ++ [name]) }
  else s

/-- The delete-category handler, `src/main.py` lines 104-107:
`categories[category_type].remove(category)`, which removes the first
occurrence.  (`list.remove` on an absent name raises `ValueError` before
any mutation, so the taxonomy is unchanged in that case, exactly as
`List.erase` leaves the list unchanged.) -/
def remove_category (s : AppState) (k name : String) : AppState :=
  { s with categories := s.categories.set k ((s.categories.get k).erase name) }

/-- JSON values, as produced by `json.dump` / consumed by `json.load`. -/
inductive Json where
  | str : String → Json
  | num : ℚ → Json
  | arr : List Json → Json
  | obj : List (String × Json) → Json

/-- The JSON object `json.dump` writes for one transaction dict
(insertion order of the dict keys is preserved). -/
def encode_transaction (t : Transaction) : Json :=
  Json.obj [("Date", Json.str t.date), ("Type", Json.str t.kind),
            ("Category", Json.str t.category), ("Amount", Json.num t.amount),
            ("Description", Json.str t.description)]

/-- Reading one transaction dict back from its JSON value. -/
def decode_transaction : Json → Option Transaction
  | Json.obj [("Date", Json.str d), ("Type", Json.str k),
              ("Category", Json.str c), ("Amount", Json.num a),
              ("Description", Json.str e)] =>
    some ⟨d, k, c, a, e⟩
  | _ => none

/-- Reading a list of transaction dicts back, elementwise. -/
def decode_transaction_list : List Json → Option (List Transaction)
  | [] => some []
  | j :: js =>
    match decode_transaction j, decode_transaction_list js with
    | some t, some ts => some (t :: ts)
    | _, _ => none

/-- Reading the stored JSON array back (`json.load`). -/
def decode_transactions : Json → Option (List Transaction)
  | Json.arr js => decode_transaction_list js
  | _ => none

/-- `save_transactions` of `src/main.py` lines 25-27: the file contents
after `json.dump(st.session_state.transactions, f)`. -/
def save_transactions (ts : List Transaction) : Json :=
  Json.arr (ts.map encode_transaction)

/-- `load_transactions` of `src/main.py` lines 30-33: the session list
after loading.  `none` models a missing `transactions.json`
(`os.path.exists` false: the session list is left as it is); a malformed
file would make `json.load` raise before the assignment, also leaving the
session list unchanged. -/
def load_transactions (file : Option Json) (current : List Transaction) :
    List Transaction :=
  match file with
  | none => current
  | some j =>
    match decode_transactions j with
    | some ts => ts
    | none => current

/-- The §8 scenario of the spec: Income/Salary/3000 on 2025-01-05,
Expense/Food/50 on 2025-01-10, Expense/Food/30 on 2025-01-20,
Expense/Rent/1200 on 2025-01-01. -/
def scenario_transactions : List Transaction :=
  [⟨"2025-01-05", "Income", "Salary", 3000, ""⟩,
   ⟨"2025-01-10", "Expense", "Food", 50, ""⟩,
   ⟨"2025-01-20", "Expense", "Food", 30, ""⟩,
   ⟨"2025-01-01", "Expense", "Rent", 1200, ""⟩]

/-! ## Helper lemmas -/

/-- Splitting a mapped sum along a Boolean predicate. -/
theorem sum_filter_split {α : Type} (p : α → Bool) (g : α → ℚ) (l : List α) :
    ((l.filter p).map g).sum + ((l.filter (fun x => !p x)).map g).sum
      = (l.map g).sum := by
  induction l with
  | nil => simp
  | cons a l ih => by_cases h : p a <;> simp [h] <;> linarith

/-- Summing fiberwise over a duplicate-free, complete list of keys gives the
total sum: the grouping introduces no double counting and omits nothing. -/
theorem sum_map_filter_fiber {α κ : Type} [BEq κ] [LawfulBEq κ]
    (f : α → κ) (g : α → ℚ) :
    ∀ (ks : List κ) (l : List α), ks.Nodup → (∀ x ∈ l, f x ∈ ks) →
      (ks.map (fun k => ((l.filter (fun x => f x == k)).map g).sum)).sum
        = (l.map g).sum := by
  intro ks
  induction ks with
  | nil =>
    intro l _ hl
    have hnil : l = [] := by
      cases l with
      | nil => rfl
      | cons a l => exact absurd (hl a (by simp)) (by simp)
    subst hnil; simp
  | cons k ks ih =>
    intro l hnd hl
    have hk : k ∉ ks := (List.nodup_cons.mp hnd).1
    have hks : ks.Nodup := (List.nodup_cons.mp hnd).2
    have hmap : ∀ k' ∈ ks,
        ((l.filter (fun x => f x == k')).map g).sum
          = (((l.filter (fun x => !(f x == k))).filter
              (fun x => f x == k')).map g).sum := by
      intro k' hk'
      rw [List.filter_filter]
      have : ∀ x ∈ l, (f x == k') = ((f x == k') && !(f x == k)) := by
        intro x _
        cases hfx : (f x == k') with
        | false => simp
        | true =>
          have hfk' : f x = k' := eq_of_beq hfx
          have : (f x == k) = false := by
            apply beq_false_of_ne
            intro hfk
            exact hk (hfk ▸ hfk' ▸ hk')
          simp [this]
      rw [List.filter_congr this]
    have htail :
        (ks.map (fun k' => ((l.filter (fun x => f x == k')).map g).sum)).sum
          = ((l.filter (fun x => !(f x == k))).map g).sum := by
      rw [List.map_congr_left hmap]
      apply ih
      · exact hks
      · intro x hx
        rcases List.mem_filter.mp hx with ⟨hxl, hxne⟩
        rcases List.mem_cons.mp (hl x hxl) with hxk | hxk
        · exact absurd (beq_self_eq_true (f x)) (by simp_all)
        · exact hxk
    simp only [List.map_cons, List.sum_cons]
    rw [htail]
    exact sum_filter_split (fun x => f x == k) g l

/-- The spec-side `totalsByKind` is the sum of the amounts of the rows of
the given kind, i.e. what `df[df['Type'] == k]['Amount'].sum()` computes. -/
theorem totalsByKind_filter (ts : List Transaction) (k : String) :
    totalsByKind ts k = sumAmounts (ts.filter (fun t => t.kind == k)) := by
  induction ts with
  | nil => simp [totalsByKind, sumAmounts]
  | cons t ts ih =>
    by_cases h : t.kind = k <;>
      simp [totalsByKind, sumAmounts, List.filter_cons, h] at * <;>
      simp [ih]

/-- Matching a displayed row on all five fields is exactly record equality,
because a transaction has no other fields. -/
theorem matchesRow_iff (t r : Transaction) : matchesRow t r = true ↔ t = r := by
  obtain ⟨d, k, c, a, e⟩ := t
  obtain ⟨d', k', c', a', e'⟩ := r
  simp [matchesRow, Transaction.mk.injEq, and_assoc]

/-- The five-field match as a Boolean equality test. -/
theorem matchesRow_eq_beq (t r : Transaction) : matchesRow t r = (t == r) := by
  rw [Bool.eq_iff_iff, matchesRow_iff, beq_iff_eq]

/-- `find?` with an equality test returns the sought element when present. -/
theorem find_first_beq_of_mem {α : Type} [BEq α] [LawfulBEq α] {a : α} :
    ∀ {l : List α}, a ∈ l → l.find? (fun t => t == a) = some a := by
  intro l
  induction l with
  | nil => intro h; cases h
  | cons b l ih =>
    intro h
    cases hba : (b == a) with
    | true =>
      simp only [List.find?_cons, hba]
      exact congrArg some (eq_of_beq hba)
    | false =>
      simp only [List.find?_cons, hba]
      rcases List.mem_cons.mp h with rfl | h'
      · simp at hba
      · exact ih h'

/-- Popping the first index of an element is erasing its first occurrence. -/
theorem eraseIdx_indexOf {α : Type} [BEq α] [LawfulBEq α] (a : α) :
    ∀ l : List α, l.eraseIdx (l.indexOf a) = l.erase a := by
  intro l
  induction l with
  | nil => rfl
  | cons b l ih =>
    cases hba : (b == a) with
    | true => simp [List.indexOf_cons, List.erase_cons, hba]
    | false => simp [List.indexOf_cons, List.erase_cons, hba, ih]

/-- The first index of `a` in `pre ++ a :: post` when `a` is not in `pre`. -/
theorem indexOf_append_cons {α : Type} [BEq α] [LawfulBEq α] (a : α) :
    ∀ pre : List α, a ∉ pre → ∀ post : List α,
      (pre ++ a :: post).indexOf a = pre.length := by
  intro pre
  induction pre with
  | nil => intro _ post; simp [List.indexOf_cons]
  | cons b pre ih =>
    intro h post
    have hb : (b == a) = false := by
      apply beq_false_of_ne
      intro hba
      exact h (by simp [hba])
    have h' : a ∉ pre := fun hm => h (List.mem_cons_of_mem _ hm)
    simp [List.indexOf_cons, hb, ih h' post]

/-- Popping the index right after `pre` removes the head of the suffix. -/
theorem eraseIdx_append_cons {α : Type} (a : α) :
    ∀ (pre post : List α), (pre ++ a :: post).eraseIdx pre.length = pre ++ post := by
  intro pre
  induction pre with
  | nil => intro post; rfl
  | cons b pre ih => intro post; simp [List.eraseIdx_cons_succ, ih post]

/-- Totality of the code-point comparison. -/
theorem charsLe_total : ∀ as bs : List Char,
    charsLe as bs = true ∨ charsLe bs as = true := by
  intro as
  induction as with
  | nil => intro bs; left; rfl
  | cons a as ih =>
    intro bs
    cases bs with
    | nil => right; rfl
    | cons b bs' =>
      rcases Nat.lt_trichotomy a.toNat b.toNat with h | h | h
      · left; simp [charsLe, h]
      · rcases ih bs' with h' | h'
        · left; simp [charsLe, h, h']
        · right; simp [charsLe, h, h']
      · right; simp [charsLe, h]

/-- Transitivity of the code-point comparison. -/
theorem charsLe_trans : ∀ as bs cs : List Char,
    charsLe as bs = true → charsLe bs cs = true → charsLe as cs = true := by
  intro as
  induction as with
  | nil => intro bs cs _ _; rfl
  | cons a as ih =>
    intro bs cs hab hbc
    cases bs with
    | nil => simp [charsLe] at hab
    | cons b bs' =>
      cases cs with
      | nil => simp [charsLe] at hbc
      | cons c cs' =>
        rcases Nat.lt_trichotomy a.toNat b.toNat with h1 | h1 | h1 <;>
          rcases Nat.lt_trichotomy b.toNat c.toNat with h2 | h2 | h2
        · simp [charsLe, Nat.lt_trans h1 h2]
        · simp [charsLe, h2 ▸ h1]
        · simp [charsLe, h2, Nat.lt_asymm h2] at hbc
        · simp [charsLe, h1 ▸ h2]
        · have hab' : charsLe as bs' = true := by
            simp [charsLe, h1, Nat.lt_irrefl] at hab
            simpa [h1] using hab
          have hbc' : charsLe bs' cs' = true := by
            simpa [charsLe, h2, Nat.lt_irrefl] using hbc
          have hac : a.toNat = c.toNat := h1.trans h2
          simp [charsLe, hac, Nat.lt_irrefl, ih bs' cs' hab' hbc']
        · simp [charsLe, h2, Nat.lt_asymm h2] at hbc
        · simp [charsLe, h1, Nat.lt_asymm h1] at hab
        · simp [charsLe, h1, Nat.lt_asymm h1] at hab
        · simp [charsLe, h1, Nat.lt_asymm h1] at hab

/-- Decoding inverts encoding for a single transaction dict. -/
theorem decode_encode (t : Transaction) :
    decode_transaction (encode_transaction t) = some t := rfl

/-- Decoding inverts encoding elementwise on a list of transaction dicts. -/
theorem decode_encode_list (ts : List Transaction) :
    decode_transaction_list (ts.map encode_transaction) = some ts := by
  induction ts with
  | nil => rfl
  | cons t ts ih =>
    show (match decode_transaction (encode_transaction t),
            decode_transaction_list (ts.map encode_transaction) with
          | some t, some ts => some (t :: ts)
          | _, _ => none) = some (t :: ts)
    rw [ih, decode_encode]

/-- The total of a category breakdown equals the total of the rows it was
computed from: the distinct sorted categories are duplicate-free and cover
every row. -/
theorem groupby_category_sum_total (l : List Transaction) :
    ((groupby_category_sum l).map Prod.snd).sum = sumAmounts l := by
  rw [groupby_category_sum, List.map_map]
  have hperm := List.perm_insertionSort (fun a b => strLe a b = true)
      ((l.map (fun t => t.category)).dedup)
  have hnd : (List.insertionSort (fun a b => strLe a b = true)
      ((l.map (fun t => t.category)).dedup)).Nodup :=
    (List.nodup_dedup _).perm hperm.symm
  have hcomp : ∀ x ∈ l, x.category ∈ List.insertionSort
      (fun a b => strLe a b = true) ((l.map (fun t => t.category)).dedup) :=
    fun x hx => (List.mem_insertionSort _).mpr
      (List.mem_dedup.mpr (List.mem_map_of_mem _ hx))
  exact sum_map_filter_fiber (fun t : Transaction => t.category)
    (fun t => t.amount) _ l hnd hcomp

/-- C1: for every transaction collection, the period balance equals the
Income total minus the Expense total of `totalsByKind` over that same
collection, and an absent kind contributes 0 (never an error). -/
theorem period_balance_eq_totalsByKind (ts : List Transaction) :
    period_balance ts = totalsByKind ts "Income" - totalsByKind ts "Expense"
    ∧ ((∀ t ∈ ts, t.kind ≠ "Income") → totalsByKind ts "Income" = 0) := by
  constructor
  · rw [period_balance, period_income, period_expenses,
      totalsByKind_filter, totalsByKind_filter]
  · intro h
    rw [totalsByKind_filter]
    have hnil : ts.filter (fun t => t.kind == "Income") = [] := by
      rw [List.filter_eq_nil_iff]
      intro t ht
      simp [h t ht]
    rw [hnil]; rfl

/-- Witness for C1 at the §8 scenario and at an expense-only collection. -/
theorem period_balance_eq_totalsByKind_witness :
    period_balance scenario_transactions
        = totalsByKind scenario_transactions "Income"
          - totalsByKind scenario_transactions "Expense"
    ∧ totalsByKind [⟨"2025-03-01", "Expense", "Rent", 100, ""⟩] "Income" = 0 :=
  ⟨(period_balance_eq_totalsByKind scenario_transactions).1,
   (period_balance_eq_totalsByKind [⟨"2025-03-01", "Expense", "Rent", 100, ""⟩]).2
     (by
       intro t ht
       rcases List.mem_singleton.mp ht with rfl
       decide)⟩

/-- C2: for every transaction collection, the per-category sums of the
Income breakdown add up to the Income total, and likewise for Expense:
the grouping is exhaustive and counts nothing twice. -/
theorem breakdown_sums_eq_totals (ts : List Transaction) :
    ((income_by_category ts).map Prod.snd).sum = totalsByKind ts "Income"
    ∧ ((expense_by_category ts).map Prod.snd).sum
        = totalsByKind ts "Expense" := by
  constructor
  · rw [income_by_category, groupby_category_sum_total, totalsByKind_filter]
  · rw [expense_by_category, groupby_category_sum_total, totalsByKind_filter]

/-- C3: when the Income total is 0 the savings-rate delta is the blank
string (no division is evaluated); when it is positive the delta is
`balance/income*100`. -/
theorem savings_rate_display_safe (ts : List Transaction) :
    (period_income ts = 0 → savings_rate_delta ts = none)
    ∧ (0 < period_income ts →
        savings_rate_delta ts
          = some (period_balance ts / period_income ts * 100)) := by
  constructor
  · intro h
    rw [savings_rate_delta, if_neg]
    rw [h]
    exact lt_irrefl 0
  · intro h
    rw [savings_rate_delta, if_pos h]

/-- Witness for C3 at an expense-only collection and at the §8 scenario. -/
theorem savings_rate_display_safe_witness :
    savings_rate_delta [⟨"2025-03-01", "Expense", "Rent", 100, ""⟩] = none
    ∧ savings_rate_delta scenario_transactions
        = some (period_balance scenario_transactions
            / period_income scenario_transactions * 100) :=
  ⟨(savings_rate_display_safe [⟨"2025-03-01", "Expense", "Rent", 100, ""⟩]).1
     (by simp +decide [period_income, sumAmounts]),
   (savings_rate_display_safe scenario_transactions).2
     (by simp +decide [period_income, sumAmounts, scenario_transactions])⟩

/-- C5: with an empty kinds selection and an empty categories selection the
filter layer returns the full input unchanged (empty means "no restriction",
not "exclude all"). -/
theorem filtered_df_empty_identity (ts : List Transaction) :
    filtered_df ts [] [] = ts := rfl

/-- C9: saving the in-memory transaction list and loading it back yields
the same list (persist-then-load is an identity round trip). -/
theorem save_load_roundtrip (ts current : List Transaction) :
    load_transactions (some (save_transactions ts)) current = ts := by
  show (match decode_transactions (save_transactions ts) with
        | some ts' => ts'
        | none => current) = ts
  rw [show decode_transactions (save_transactions ts)
        = decode_transaction_list (ts.map encode_transaction) from rfl,
      decode_encode_list]

/-- C4 (amended): the category breakdown for a kind lists only categories
with at least one transaction of that kind (zero categories omitted), each
exactly once, ordered ascending by category name (the pandas `groupby`
key order) — not descending by sum; in the §8 scenario the Expense
breakdown is `[(Food, 80), (Rent, 1200)]`. -/
theorem breakdown_only_present_ascending (ts : List Transaction) (k : String) :
    ((∀ p ∈ groupby_category_sum (ts.filter (fun t => t.kind == k)),
        ∃ t ∈ ts, t.kind = k ∧ t.category = p.1)
      ∧ ((groupby_category_sum (ts.filter (fun t => t.kind == k))).map
          Prod.fst).Nodup
      ∧ List.Pairwise (fun p q : String × ℚ => strLe p.1 q.1 = true)
          (groupby_category_sum (ts.filter (fun t => t.kind == k))))
    ∧ expense_by_category scenario_transactions
        = [("Food", 80), ("Rent", 1200)] := by
  have hperm := List.perm_insertionSort (fun a b => strLe a b = true)
      (((ts.filter (fun t => t.kind == k)).map (fun t => t.category)).dedup)
  refine ⟨⟨?_, ?_, ?_⟩, ?_⟩
  · intro p hp
    rw [groupby_category_sum] at hp
    rcases List.mem_map.mp hp with ⟨c, hc, rfl⟩
    have hc' : c ∈ ((ts.filter (fun t => t.kind == k)).map
        (fun t => t.category)).dedup := (List.mem_insertionSort _).mp hc
    rcases List.mem_map.mp (List.mem_dedup.mp hc') with ⟨t, ht, rfl⟩
    rcases List.mem_filter.mp ht with ⟨hts, hkind⟩
    exact ⟨t, hts, eq_of_beq hkind, rfl⟩
  · rw [groupby_category_sum, List.map_map]
    have hid : (Prod.fst ∘ fun c : String =>
        (c, sumAmounts ((ts.filter (fun t => t.kind == k)).filter
          (fun t => t.category == c)))) = id := rfl
    rw [hid, List.map_id]
    exact (List.nodup_dedup _).perm hperm.symm
  · rw [groupby_category_sum, List.pairwise_map]
    haveI : IsTotal String (fun a b => strLe a b = true) :=
      ⟨fun a b => charsLe_total a.data b.data⟩
    haveI : IsTrans String (fun a b => strLe a b = true) :=
      ⟨fun a b c => charsLe_trans a.data b.data c.data⟩
    exact List.sorted_insertionSort (fun a b => strLe a b = true) _
  · simp +decide [expense_by_category, groupby_category_sum, sumAmounts,
      scenario_transactions, List.insertionSort, List.orderedInsert,
      strLe, charsLe]
    norm_num

/-- Witness for C4: the breakdown entry `(Food, 80)` of the §8 scenario
comes from an Expense transaction in the Food category. -/
theorem breakdown_only_present_ascending_witness :
    ∃ t ∈ scenario_transactions, t.kind = "Expense" ∧ t.category = "Food" :=
  (breakdown_only_present_ascending scenario_transactions "Expense").1.1
    ("Food", 80)
    (by
      simp +decide [groupby_category_sum, sumAmounts, scenario_transactions,
        List.insertionSort, List.orderedInsert, strLe, charsLe]
      norm_num)

/-- Counterexample for C4 as stated: on the §8 scenario the code's Expense
breakdown is `[(Food, 80), (Rent, 1200)]` — ascending by category name,
not the claimed `[(Rent, 1200), (Food, 80)]` descending by sum. -/
theorem expense_breakdown_descending_counterexample :
    expense_by_category scenario_transactions = [("Food", 80), ("Rent", 1200)]
    ∧ expense_by_category scenario_transactions
        ≠ [("Rent", 1200), ("Food", 80)] := by
  have h : expense_by_category scenario_transactions
      = [("Food", 80), ("Rent", 1200)] := by
    simp +decide [expense_by_category, groupby_category_sum, sumAmounts,
      scenario_transactions, List.insertionSort, List.orderedInsert,
      strLe, charsLe]
    norm_num
  refine ⟨h, ?_⟩
  rw [h]
  intro hc
  have hfst := congrArg (fun l : List (String × ℚ) => l.map Prod.fst) hc
  simp only [List.map_cons, List.map_nil] at hfst
  exact absurd hfst (by decide)

/-- C6: grouping rows by the `(Year, Month)` key derived from the date
partitions the collection — every transaction lies in exactly one group,
and the groups' sums add up to the ungrouped total. -/
theorem year_month_partition (ts : List Transaction) :
    (∀ t ∈ ts, ∃! k : Nat × Nat, k ∈ ymKeys ts ∧ t ∈ ymGroup ts k)
    ∧ ((ymKeys ts).map (fun k => sumAmounts (ymGroup ts k))).sum
        = sumAmounts ts := by
  constructor
  · intro t ht
    refine ⟨(yearOf t, monthOf t), ⟨?_, ?_⟩, ?_⟩
    · exact List.mem_dedup.mpr (List.mem_map_of_mem _ ht)
    · rw [ymGroup, List.mem_filter]
      exact ⟨ht, by simp⟩
    · rintro ⟨y, m⟩ ⟨_, hmem⟩
      rcases List.mem_filter.mp hmem with ⟨_, hcond⟩
      simp only [Bool.and_eq_true, beq_iff_eq] at hcond
      simp [hcond.1, hcond.2]
  · have hnd : (ymKeys ts).Nodup := List.nodup_dedup _
    have hcomp : ∀ t ∈ ts, (yearOf t, monthOf t) ∈ ymKeys ts := fun t ht =>
      List.mem_dedup.mpr (List.mem_map_of_mem _ ht)
    exact sum_map_filter_fiber (fun t : Transaction => (yearOf t, monthOf t))
      (fun t => t.amount) (ymKeys ts) ts hnd hcomp

/-- Witness for C6: the groups' sums reconcile with the total on the §8
scenario. -/
theorem year_month_partition_witness :
    ((ymKeys scenario_transactions).map
        (fun k => sumAmounts (ymGroup scenario_transactions k))).sum
      = sumAmounts scenario_transactions :=
  (year_month_partition scenario_transactions).2

/-- C7: when some stored transaction matches the displayed row, the
single-row delete removes exactly one matching transaction (the length
drops by one, the multiplicity of the matched value drops by one, and
every other transaction keeps its multiplicity); when nothing matches,
the lookup fails before any mutation and no new state is produced. -/
theorem delete_row_spec (ts : List Transaction) (row : Transaction) :
    ((∃ t ∈ ts, matchesRow t row = true) →
      ∃ ts', delete_row ts row = some ts'
        ∧ ts'.length + 1 = ts.length
        ∧ (∀ u : Transaction, u ≠ row → ts'.count u = ts.count u)
        ∧ ts'.count row + 1 = ts.count row)
    ∧ ((∀ t ∈ ts, ¬ matchesRow t row = true) → delete_row ts row = none) := by
  have hpred : (fun t => matchesRow t row) = (fun t => t == row) :=
    funext fun t => matchesRow_eq_beq t row
  constructor
  · rintro ⟨t, ht, hm⟩
    have hrow : row ∈ ts := (matchesRow_iff t row).mp hm ▸ ht
    refine ⟨ts.erase row, ?_, ?_, ?_, ?_⟩
    · rw [delete_row, original_index, hpred, find_first_beq_of_mem hrow]
      simp [delete_transaction, eraseIdx_indexOf]
    · have hlen := List.length_erase_of_mem hrow
      have hpos : 0 < ts.length := List.length_pos.mpr (List.ne_nil_of_mem hrow)
      omega
    · intro u hu
      exact List.count_erase_of_ne hu ts
    · have hcnt := List.count_erase_self row ts
      have hpos : 0 < ts.count row := List.count_pos_iff.mpr hrow
      omega
  · intro h
    rw [delete_row, original_index, List.find?_eq_none.mpr h]
    rfl

/-- Witness for C7: deleting the Food/50 row of the §8 scenario. -/
theorem delete_row_spec_witness :
    ∃ ts', delete_row scenario_transactions
        ⟨"2025-01-10", "Expense", "Food", 50, ""⟩ = some ts'
      ∧ ts'.length + 1 = scenario_transactions.length
      ∧ (∀ u : Transaction, u ≠ ⟨"2025-01-10", "Expense", "Food", 50, ""⟩ →
          ts'.count u = scenario_transactions.count u)
      ∧ ts'.count ⟨"2025-01-10", "Expense", "Food", 50, ""⟩ + 1
          = scenario_transactions.count ⟨"2025-01-10", "Expense", "Food", 50, ""⟩ :=
  (delete_row_spec scenario_transactions
      ⟨"2025-01-10", "Expense", "Food", 50, ""⟩).1
    ⟨⟨"2025-01-10", "Expense", "Food", 50, ""⟩,
     List.mem_cons_of_mem _ (List.mem_cons_self _ _),
     by simp [matchesRow]⟩

/-- C8: adding a fresh category name and then removing it restores the
taxonomy exactly, and neither operation touches the stored transactions
(no cascading delete). -/
theorem add_remove_category_spec (s : AppState) (k name : String)
    (hk : k = "Income" ∨ k = "Expense")
    (h : name ∉ s.categories.get k) :
    remove_category (add_category s k name) k name = s
    ∧ (∀ s' : AppState,
        (add_category s' k name).transactions = s'.transactions
        ∧ (remove_category s' k name).transactions = s'.transactions) := by
  constructor
  · obtain ⟨tr, inc, exp⟩ := s
    by_cases hname : name = ""
    · subst hname
      have hadd : add_category ⟨tr, inc, exp⟩ k "" = ⟨tr, inc, exp⟩ := by
        rw [add_category, if_neg]
        simp
      rw [hadd, remove_category, List.erase_of_not_mem h]
      rcases hk with rfl | rfl <;>
        simp [Categories.get, Categories.set]
    · rw [add_category, if_pos ⟨hname, h⟩]
      rcases hk with rfl | rfl <;>
        simp_all [remove_category, Categories.get, Categories.set,
          List.erase_append_right, List.erase_cons_head]
  · intro s'
    constructor
    · rw [add_category]
      split <;> rfl
    · rfl

/-- Witness for C8: add then remove `Rent` as an Expense category on a
small state. -/
theorem add_remove_category_spec_witness :
    remove_category
        (add_category ⟨[], ⟨["Salary"], ["Food"]⟩⟩ "Expense" "Rent")
        "Expense" "Rent"
      = ⟨[], ⟨["Salary"], ["Food"]⟩⟩ :=
  (add_remove_category_spec ⟨[], ⟨["Salary"], ["Food"]⟩⟩ "Expense" "Rent"
      (Or.inr rfl) (by decide)).1

/-- C10: when several stored transactions match the displayed row on all
five fields, the single-row delete removes the earliest-inserted
(lowest-index) match: later duplicates are all retained. -/
theorem delete_row_earliest_match (pre post : List Transaction)
    (row : Transaction) (h : ∀ t ∈ pre, ¬ matchesRow t row = true) :
    delete_row (pre ++ row :: post) row = some (pre ++ post) := by
  have hpred : (fun t => matchesRow t row) = (fun t => t == row) :=
    funext fun t => matchesRow_eq_beq t row
  have hnotmem : row ∉ pre := fun hm => h row hm (by simp [matchesRow_iff])
  have hfind : (pre ++ row :: post).find? (fun t => t == row) = some row := by
    rw [List.find?_append]
    have h1 : pre.find? (fun t => t == row) = none :=
      List.find?_eq_none.mpr (fun x hx hbeq =>
        hnotmem (eq_of_beq hbeq ▸ hx))
    rw [h1]
    simp [List.find?_cons]
  rw [delete_row, original_index, hpred, hfind]
  simp [delete_transaction, indexOf_append_cons row pre hnotmem post,
    eraseIdx_append_cons]

/-- Witness for C10: two identical Food/50 rows; deleting the row removes
the earlier one and keeps the later duplicate. -/
theorem delete_row_earliest_match_witness :
    delete_row ([(⟨"2025-01-05", "Income", "Salary", 3000, ""⟩ : Transaction)]
        ++ (⟨"2025-01-10", "Expense", "Food", 50, ""⟩ : Transaction)
        :: [⟨"2025-01-20", "Expense", "Food", 30, ""⟩,
            ⟨"2025-01-10", "Expense", "Food", 50, ""⟩])
        ⟨"2025-01-10", "Expense", "Food", 50, ""⟩
      = some ([(⟨"2025-01-05", "Income", "Salary", 3000, ""⟩ : Transaction)]
          ++ [⟨"2025-01-20", "Expense", "Food", 30, ""⟩,
              ⟨"2025-01-10", "Expense", "Food", 50, ""⟩]) :=
  delete_row_earliest_match _ _ _ (by
    intro t ht
    rcases List.mem_singleton.mp ht with rfl
    intro hm
    have heq := (matchesRow_iff _ _).mp hm
    exact absurd (congrArg Transaction.date heq) (by decide))
